import Mathlib

/-!
Verification development for the `SelicCalc` compound-interest calculator
(`src/solution/solution.py`).

The Python program is shallowly embedded over `List` and `ℚ`:
pandas `DataFrame` rows become records of a structure, pandas column
operations (`shift`, `add`, `cumprod`, `fillna`, elementwise `*`)
become list functions, `NaN` entries are `Option.none`, and fallible
operations (`iloc` on an empty frame, `None.date()`) return `Option`.
Python `float` arithmetic is modelled with exact rationals.
-/

/-- A calendar date, as used by `datetime.date` / pandas timestamps.
Comparison of dates is lexicographic on (year, month, day). -/
structure Date where
  year : ℕ
  month : ℕ
  day : ℕ
deriving DecidableEq, Repr

/-- Strict order on dates (Python `<` on `date` / pandas timestamps). -/
def Date.lt (a b : Date) : Prop :=
  a.year < b.year ∨ (a.year = b.year ∧
    (a.month < b.month ∨ (a.month = b.month ∧ a.day < b.day)))

/-- Non-strict order on dates (Python `<=`). -/
def Date.le (a b : Date) : Prop :=
  a.year < b.year ∨ (a.year = b.year ∧
    (a.month < b.month ∨ (a.month = b.month ∧ a.day ≤ b.day)))

instance (a b : Date) : Decidable (Date.lt a b) := by
  unfold Date.lt; exact inferInstance

instance (a b : Date) : Decidable (Date.le a b) := by
  unfold Date.le; exact inferInstance

theorem Date.le_refl (a : Date) : Date.le a a := by
  unfold Date.le; omega

theorem Date.le_of_lt {a b : Date} (h : Date.lt a b) : Date.le a b := by
  unfold Date.lt at h; unfold Date.le; omega

theorem Date.not_le_of_lt {a b : Date} (h : Date.lt a b) : ¬ Date.le b a := by
  unfold Date.lt at h; unfold Date.le; omega

theorem Date.lt_of_not_le {a b : Date} (h : ¬ Date.le a b) : Date.lt b a := by
  unfold Date.le at h; unfold Date.lt; omega

/-- One row of the fetched rate series: columns `data` (date) and
`valor` (daily rate, already divided by 100 into a fraction). -/
structure RateRec where
  data : Date
  valor : ℚ
deriving DecidableEq, Repr

instance : Inhabited RateRec := ⟨⟨⟨0, 0, 0⟩, 0⟩⟩

/-- The rate series is strictly ascending by date (sorted, one record
per distinct date), as produced by `df.sort_values(by=["data"])` on the
daily series. -/
def AscDates (df : List RateRec) : Prop :=
  List.Pairwise (fun a b => Date.lt a.data b.data) df

instance (df : List RateRec) : Decidable (AscDates df) := by
  unfold AscDates; exact inferInstance

/-- pandas `Series.shift()`: moves values down one position, the first
entry becomes `NaN` (`none`); the length is unchanged. -/
def shift : List ℚ → List (Option ℚ)
  | [] => []
  | x :: xs => none :: ((x :: xs).dropLast.map some)

/-- pandas `Series.add(1)`: elementwise `+ 1`, `NaN` stays `NaN`. -/
def addOne (l : List (Option ℚ)) : List (Option ℚ) :=
  l.map (Option.map (fun x => x + 1))

/-- pandas `Series.cumprod()` with its default `skipna=True`: running
product of the non-`NaN` entries, `NaN` entries stay `NaN` and do not
enter the product.  `acc` is the product accumulated so far. -/
def cumprodAux (acc : ℚ) : List (Option ℚ) → List (Option ℚ)
  | [] => []
  | none :: t => none :: cumprodAux acc t
  | some x :: t => some (acc * x) :: cumprodAux (acc * x) t

/-- pandas `Series.cumprod()` (accumulator starts at 1). -/
def cumprod (l : List (Option ℚ)) : List (Option ℚ) :=
  cumprodAux 1 l

/-- pandas `Series.fillna(v)`: replace `NaN` entries by `v`. -/
def fillna (v : ℚ) (l : List (Option ℚ)) : List ℚ :=
  l.map (fun o => o.getD v)

/-- The compounding engine of `calc_amount` (and of `calc_sum` /
`compound_interest`, which use the same expression):

    df["compound"] = capital
    df["compound"] = df["compound"] * df["valor"].shift().add(1).cumprod().fillna(1)

given the capital and the `valor` column, produce the `compound` column. -/
def compoundCol (capital : ℚ) (valor : List ℚ) : List ℚ :=
  (fillna 1 (cumprod (addOne (shift valor)))).map (fun x => capital * x)

/-- The compounding formula as the specification states it
(§4.3): `compoundedValue[0] = C` and
`compoundedValue[i] = C × Π_(k=1..i) (1 + rate[k-1])`, i.e. each step
multiplies the running value by `(1 + rate)` of the *previous* record.
This definition follows the spec's words, to be compared with
`compoundCol`, which is translated from the code. -/
def specCompound (c : ℚ) : List ℚ → List ℚ
  | [] => []
  | r :: rs => c :: specCompound (c * (1 + r)) rs

/-- Helper: the running product `rawScan a [x₁, x₂, …] = [a·x₁, a·x₁·x₂, …]`. -/
def rawScan (a : ℚ) : List ℚ → List ℚ
  | [] => []
  | x :: xs => (a * x) :: rawScan (a * x) xs

theorem fillna_cumprodAux_some (a : ℚ) (l : List ℚ) :
    fillna 1 (cumprodAux a (l.map some)) = rawScan a l := by
  induction l generalizing a with
  | nil => rfl
  | cons x xs ih =>
    simp only [List.map_cons, cumprodAux, fillna, List.map_cons, Option.getD_some,
      rawScan]
    exact congrArg _ (ih (a * x))

theorem map_rawScan (c a : ℚ) (l : List ℚ) :
    (rawScan a l).map (fun x => c * x) = rawScan (c * a) l := by
  induction l generalizing a with
  | nil => rfl
  | cons x xs ih =>
    simp only [rawScan, List.map_cons]
    rw [ih (a * x), mul_assoc]

theorem specCompound_eq_rawScan (c : ℚ) (v : List ℚ) (hv : v ≠ []) :
    specCompound c v = c :: rawScan c (v.dropLast.map (fun r => r + 1)) := by
  induction v generalizing c with
  | nil => exact absurd rfl hv
  | cons r rs ih =>
    cases rs with
    | nil => rfl
    | cons b t =>
      show c :: specCompound (c * (1 + r)) (b :: t) = _
      rw [ih (c * (1 + r)) (by simp)]
      simp only [List.dropLast_cons₂, List.map_cons, rawScan]
      rw [add_comm 1 r]

theorem compoundCol_eq_specCompound (capital : ℚ) (v : List ℚ) :
    compoundCol capital v = specCompound capital v := by
  cases v with
  | nil => rfl
  | cons x xs =>
    unfold compoundCol shift
    simp only [addOne, List.map_cons, Option.map_none', List.map_map]
    have hmm : (Option.map (fun x => x + 1)) ∘ (some : ℚ → Option ℚ)
        = some ∘ (fun x : ℚ => x + 1) := by
      funext y; rfl
    rw [hmm, ← List.map_map]
    unfold cumprod cumprodAux
    simp only [fillna, List.map_cons, Option.getD_none]
    rw [show ∀ l : List (Option ℚ), List.map (fun o => o.getD 1) l = fillna 1 l from
      fun _ => rfl]
    rw [fillna_cumprodAux_some, map_rawScan, mul_one]
    rw [specCompound_eq_rawScan capital (x :: xs) (by simp)]

theorem specCompound_length (c : ℚ) (v : List ℚ) :
    (specCompound c v).length = v.length := by
  induction v generalizing c with
  | nil => rfl
  | cons r rs ih => simp [specCompound, ih]

theorem specCompound_getD_closed (c : ℚ) (v : List ℚ) (i : ℕ) (hi : i < v.length) :
    (specCompound c v).getD i 0 = c * ((v.take i).map (fun r => 1 + r)).prod := by
  induction v generalizing c i with
  | nil => simp at hi
  | cons r rs ih =>
    cases i with
    | zero => simp [specCompound]
    | succ i =>
      simp only [specCompound, List.getD_cons_succ, List.take_succ_cons,
        List.map_cons, List.prod_cons]
      rw [ih (c * (1 + r)) i (by simpa using hi)]
      ring

theorem specCompound_getD_zero (c : ℚ) (v : List ℚ) (hv : v ≠ []) :
    (specCompound c v).getD 0 0 = c := by
  cases v with
  | nil => exact absurd rfl hv
  | cons r rs => rfl

/-- **C1.** For every capital `C` and every rate series of length `N ≥ 1`,
the compounding engine produces a column of the same length with
`compound[0] = C` exactly, `compound[i] = compound[i-1] * (1 + rate[i-1])`
for `1 ≤ i < N`, equivalently `compound[i] = C * Π_(k<i) (1 + rate[k])`;
in particular for capital 1000 and rates `[0.01, 0.02, 0.0]` the column
is `[1000, 1010, 1030.2]`. -/
theorem c1_compounding_engine (capital : ℚ) (v : List ℚ) (hlen : 1 ≤ v.length) :
    (compoundCol capital v).length = v.length ∧
    (compoundCol capital v).getD 0 0 = capital ∧
    (∀ i, 1 ≤ i → i < v.length →
      (compoundCol capital v).getD i 0 =
        (compoundCol capital v).getD (i - 1) 0 * (1 + v.getD (i - 1) 0)) ∧
    (∀ i, i < v.length →
      (compoundCol capital v).getD i 0 =
        capital * ((v.take i).map (fun r => 1 + r)).prod) ∧
    compoundCol 1000 [1/100, 2/100, 0] = [1000, 1010, 10302/10] := by
  rw [compoundCol_eq_specCompound]
  refine ⟨specCompound_length capital v, ?_, ?_, ?_, ?_⟩
  · exact specCompound_getD_zero capital v (by cases v <;> simp_all)
  · intro i h1 hi
    obtain ⟨j, rfl⟩ : ∃ j, i = j + 1 := ⟨i - 1, by omega⟩
    simp only [Nat.add_sub_cancel]
    rw [specCompound_getD_closed capital v (j + 1) hi,
      specCompound_getD_closed capital v j (by omega)]
    have hj : j < v.length := by omega
    have htake : v.take (j + 1) = v.take j ++ [v.getD j 0] := by
      rw [List.getD_eq_getElem v 0 hj, List.take_succ,
        List.getElem?_eq_getElem hj, Option.toList_some]
    rw [htake]
    simp only [List.map_append, List.prod_append, List.map_cons, List.map_nil,
      List.prod_cons, List.prod_nil, Nat.add_sub_cancel]
    ring
  · intro i hi
    exact specCompound_getD_closed capital v i hi
  · rw [compoundCol_eq_specCompound]
    show (1000 : ℚ) :: specCompound (1000 * (1 + 1/100)) [2/100, 0] = _
    show (1000 : ℚ) :: (1000 * (1 + 1/100)) ::
      specCompound ((1000 * (1 + 1/100)) * (1 + 2/100)) [0] = _
    show (1000 : ℚ) :: (1000 * (1 + 1/100)) ::
      ((1000 * (1 + 1/100)) * (1 + 2/100)) :: [] = _
    norm_num

/-- Witness for `c1_compounding_engine` at capital 5 and rates `[0, 1/2]`. -/
theorem c1_compounding_engine_witness :
    1 ≤ ([0, 1/2] : List ℚ).length ∧
    (compoundCol 5 [0, 1/2]).getD 1 0 =
      (compoundCol 5 [0, 1/2]).getD 0 0 * (1 + ([0, 1/2] : List ℚ).getD 0 0) :=
  ⟨by simp, (c1_compounding_engine 5 [0, 1/2] (by simp)).2.2.1 1 le_rfl (by simp)⟩

/-- `df.iloc[i]["data"]` for an in-range index (out of range yields the
default record; all uses below are guarded to be in range). -/
def dAt (df : List RateRec) (i : ℕ) : Date :=
  (df.getD i default).data

/-- `calc_sum(start_date, end_date, df)`, with the series threaded
explicitly: it filters `df` to the rows whose date lies in
`[start_date, end_date]`, builds the compounded column `x` on that
*copy* (`_df`), and returns `_df.iloc[-1]["x"]` — `none` models the
`IndexError` raised when the filtered frame is empty.  The second
component is the state of `df` after the call: the function only ever
assigns into its local copy `_df`, so `df` is returned unmodified. -/
def calcSumSt (capital : ℚ) (start_date end_date : Date) (df : List RateRec) :
    Option ℚ × List RateRec :=
  let f := df.filter (fun r =>
    decide (Date.le start_date r.data) && decide (Date.le r.data end_date))
  ((compoundCol capital (f.map (fun r => r.valor))).getLast?, df)

/-- The value of `calc_sum` (its returned `val`). -/
def calc_sum (capital : ℚ) (start_date end_date : Date) (df : List RateRec) :
    Option ℚ :=
  (calcSumSt capital start_date end_date df).1

/-- One iteration of the loop in `max_val_range`: read the window's
boundary dates, call `calc_sum`, and update `(best_start, best_end,
best_value)` when `value > best_value`.  The accumulator's first
component is `none` once a `calc_sum` call has failed, otherwise
`some (best_start_end?, best_value)`; the second component is the
threaded series. -/
def maxStep (capital : ℚ) (range_of : ℕ)
    (acc : Option (Option (Date × Date) × ℚ) × List RateRec) (i : ℕ) :
    Option (Option (Date × Date) × ℚ) × List RateRec :=
  let df := acc.2
  let sdate := dAt df i
  let edate := dAt df (i + range_of - 1)
  let r := calcSumSt capital sdate edate df
  (acc.1.bind (fun be => r.1.map (fun v =>
    if be.2 < v then (some (sdate, edate), v) else be)), r.2)

/-- The loop of `max_val_range`: `for i in range(len(df) - range_of)`,
starting from `best_start = best_end = None`, `best_value = 0`. -/
def maxValLoopSt (capital : ℚ) (range_of : ℕ) (df : List RateRec) :
    Option (Option (Date × Date) × ℚ) × List RateRec :=
  (List.range (df.length - range_of)).foldl (maxStep capital range_of)
    (some (none, 0), df)

/-- `max_val_range(df, range_of)`: the report printed at the end,
`(best_start, best_end, best_value)`.  `none` models the run failing —
either a `calc_sum` crash or the final `best_start.date()` call on
`None` when the loop never updated the best window. -/
def max_val_range (capital : ℚ) (range_of : ℕ) (df : List RateRec) :
    Option (Date × Date × ℚ) :=
  (maxValLoopSt capital range_of df).1.bind (fun be =>
    be.1.map (fun se => (se.1, se.2, be.2)))

/-- The compounding formula computed independently over one window, as
the specification words it (§4.4): the final compounded value obtained
by seeding the window of `range_of` records starting at index `i` with
the capital and applying the one-position-lag product. -/
def specWindowValue (capital : ℚ) (df : List RateRec) (range_of i : ℕ) : ℚ :=
  capital *
    (((((df.drop i).take range_of).map (fun r => r.valor)).dropLast).map
      (fun r => 1 + r)).prod

/-- Pure form of one loop iteration, used to analyse the fold once all
`calc_sum` calls are known to succeed. -/
def pureStep (capital : ℚ) (df : List RateRec) (range_of : ℕ)
    (be : Option (Date × Date) × ℚ) (i : ℕ) : Option (Date × Date) × ℚ :=
  if be.2 < specWindowValue capital df range_of i then
    (some (dAt df i, dAt df (i + range_of - 1)), specWindowValue capital df range_of i)
  else be

/-- Pure form of the whole loop over the first `n` candidate windows. -/
def bestFold (capital : ℚ) (df : List RateRec) (range_of n : ℕ) :
    Option (Date × Date) × ℚ :=
  (List.range n).foldl (pureStep capital df range_of) (none, 0)

theorem specCompound_getLast (c : ℚ) (v : List ℚ) (hv : v ≠ []) :
    (specCompound c v).getLast? =
      some (c * (v.dropLast.map (fun r => 1 + r)).prod) := by
  induction v generalizing c with
  | nil => exact absurd rfl hv
  | cons r rs ih =>
    cases rs with
    | nil => simp [specCompound]
    | cons b t =>
      show ((c :: specCompound (c * (1 + r)) (b :: t)).getLast?) = _
      rw [show specCompound (c * (1 + r)) (b :: t)
          = (c * (1 + r)) :: specCompound ((c * (1 + r)) * (1 + b)) t from rfl]
      rw [List.getLast?_cons_cons,
        ← show specCompound (c * (1 + r)) (b :: t)
          = (c * (1 + r)) :: specCompound ((c * (1 + r)) * (1 + b)) t from rfl]
      rw [ih (c * (1 + r)) (by simp)]
      simp only [List.dropLast_cons₂, List.map_cons, List.prod_cons]
      rw [mul_assoc]

theorem filter_of_all_false {α : Type} (l : List α) (p : α → Bool)
    (h : ∀ k (hk : k < l.length), p (l.get ⟨k, hk⟩) = false) :
    l.filter p = [] := by
  induction l with
  | nil => rfl
  | cons a t ih =>
    have h0 := h 0 (by simp)
    simp only [List.get] at h0
    rw [List.filter_cons, h0]
    exact ih (fun k hk => h (k + 1) (by simpa using Nat.succ_lt_succ hk))

theorem filter_interval {α : Type} (l : List α) (p : α → Bool) (i j : ℕ)
    (h : ∀ k (hk : k < l.length), p (l.get ⟨k, hk⟩) = decide (i ≤ k ∧ k ≤ j)) :
    l.filter p = (l.drop i).take (j + 1 - i) := by
  induction l generalizing i j with
  | nil => simp
  | cons a t ih =>
    have h0 := h 0 (by simp)
    simp only [List.get] at h0
    have ht : ∀ k (hk : k < t.length),
        p (t.get ⟨k, hk⟩) = decide (i ≤ k + 1 ∧ k + 1 ≤ j) := by
      intro k hk
      have := h (k + 1) (by simpa using Nat.succ_lt_succ hk)
      simpa using this
    cases i with
    | zero =>
      have hpa : p a = true := by rw [h0]; simp
      rw [List.filter_cons, hpa]
      cases j with
      | zero =>
        have : t.filter p = [] := by
          apply filter_of_all_false
          intro k hk
          rw [ht k hk]
          simp
        simp [this]
      | succ j' =>
        have : t.filter p = (t.drop 0).take (j' + 1 - 0) := by
          apply ih
          intro k hk
          rw [ht k hk]
          have : (0 ≤ k ∧ k ≤ j') ↔ (0 ≤ k + 1 ∧ k + 1 ≤ j' + 1) := by omega
          rw [decide_eq_decide]
          omega
        simpa using this
    | succ i' =>
      have hpa : p a = false := by rw [h0]; simp
      rw [List.filter_cons, hpa]
      simp only [Bool.false_eq_true, if_false]
      cases j with
      | zero =>
        have : t.filter p = [] := by
          apply filter_of_all_false
          intro k hk
          rw [ht k hk]
          simp
        rw [this]
        have : 0 + 1 - (i' + 1) = 0 := by omega
        simp [this]
      | succ j' =>
        have : t.filter p = (t.drop i').take (j' + 1 - i') := by
          apply ih
          intro k hk
          rw [ht k hk, decide_eq_decide]
          omega
        rw [this]
        simp only [List.drop_succ_cons]
        congr 1
        omega

theorem calc_sum_window (capital : ℚ) (df : List RateRec) (L i : ℕ)
    (hasc : AscDates df) (hL : 1 ≤ L) (hiL : i + L ≤ df.length) :
    calc_sum capital (dAt df i) (dAt df (i + L - 1)) df
      = some (specWindowValue capital df L i) := by
  have hi' : i < df.length := by omega
  have hj' : i + L - 1 < df.length := by omega
  have hmono := List.pairwise_iff_get.mp hasc
  have hdi : dAt df i = (df.get ⟨i, hi'⟩).data := by
    unfold dAt
    rw [List.getD_eq_getElem df default hi']
    simp [List.get_eq_getElem]
  have hdj : dAt df (i + L - 1) = (df.get ⟨i + L - 1, hj'⟩).data := by
    unfold dAt
    rw [List.getD_eq_getElem df default hj']
    simp [List.get_eq_getElem]
  have hfil : df.filter (fun r =>
      decide (Date.le (dAt df i) r.data) &&
      decide (Date.le r.data (dAt df (i + L - 1))))
      = (df.drop i).take ((i + L - 1) + 1 - i) := by
    apply filter_interval
    intro k hk
    have h1 : Date.le (dAt df i) (df.get ⟨k, hk⟩).data ↔ i ≤ k := by
      rw [hdi]
      constructor
      · intro hle
        by_contra hik
        push_neg at hik
        exact Date.not_le_of_lt
          (hmono ⟨k, hk⟩ ⟨i, hi'⟩ (by simpa using hik)) hle
      · intro hik
        rcases Nat.eq_or_lt_of_le hik with heq | hlt
        · simp only [heq]
          exact Date.le_refl _
        · exact Date.le_of_lt (hmono ⟨i, hi'⟩ ⟨k, hk⟩ (by simpa using hlt))
    have h2 : Date.le (df.get ⟨k, hk⟩).data (dAt df (i + L - 1)) ↔ k ≤ i + L - 1 := by
      rw [hdj]
      constructor
      · intro hle
        by_contra hik
        push_neg at hik
        exact Date.not_le_of_lt
          (hmono ⟨i + L - 1, hj'⟩ ⟨k, hk⟩ (by simpa using hik)) hle
      · intro hik
        rcases Nat.eq_or_lt_of_le hik with heq | hlt
        · simp only [← heq]
          exact Date.le_refl _
        · exact Date.le_of_lt (hmono ⟨k, hk⟩ ⟨i + L - 1, hj'⟩ (by simpa using hlt))
    simp only [Bool.decide_and]
    rw [decide_eq_decide.mpr h1, decide_eq_decide.mpr h2]
  have hLsub : (i + L - 1) + 1 - i = L := by omega
  rw [hLsub] at hfil
  have hne : (((df.drop i).take L).map (fun r => r.valor)) ≠ [] := by
    apply List.ne_nil_of_length_pos
    simp only [List.length_map, List.length_take, List.length_drop]
    omega
  unfold calc_sum calcSumSt
  simp only [hfil]
  rw [compoundCol_eq_specCompound, specCompound_getLast _ _ hne]
  rfl

theorem foldl_maxStep_snd (capital : ℚ) (L : ℕ) (d : List RateRec)
    (js : List ℕ) :
    ∀ a, ((js.foldl (maxStep capital L) (a, d)).2 = d) := by
  induction js with
  | nil => intro a; rfl
  | cons j js ih =>
    intro a
    rw [List.foldl_cons]
    have hstep : maxStep capital L (a, d) j = ((maxStep capital L (a, d) j).1, d) := rfl
    rw [hstep]
    exact ih _

theorem foldl_maxStep_pure (capital : ℚ) (L : ℕ) (d : List RateRec)
    (js : List ℕ)
    (hdef : ∀ i ∈ js, calc_sum capital (dAt d i) (dAt d (i + L - 1)) d
      = some (specWindowValue capital d L i)) :
    ∀ be, ((js.foldl (maxStep capital L) (some be, d)).1
      = some (js.foldl (pureStep capital d L) be)) := by
  induction js with
  | nil => intro be; rfl
  | cons j js ih =>
    intro be
    rw [List.foldl_cons, List.foldl_cons]
    have hj := hdef j (List.mem_cons_self j js)
    have hstep : maxStep capital L (some be, d) j
        = (some (pureStep capital d L be j), d) := by
      unfold maxStep pureStep
      simp only [Option.bind_eq_bind, Option.some_bind]
      rw [show (calcSumSt capital (dAt d j) (dAt d (j + L - 1)) d).1
        = calc_sum capital (dAt d j) (dAt d (j + L - 1)) d from rfl, hj]
      rfl
    rw [hstep]
    exact ih (fun i hi => hdef i (List.mem_cons_of_mem _ hi)) _

theorem bestFold_invariant (capital : ℚ) (d : List RateRec) (L : ℕ) (n : ℕ) :
    (bestFold capital d L n = (none, 0) ∧
      ∀ j, j < n → specWindowValue capital d L j ≤ 0) ∨
    (∃ i0, i0 < n ∧
      bestFold capital d L n
        = (some (dAt d i0, dAt d (i0 + L - 1)), specWindowValue capital d L i0) ∧
      0 < specWindowValue capital d L i0 ∧
      (∀ j, j < n → specWindowValue capital d L j ≤ specWindowValue capital d L i0) ∧
      (∀ j, j < i0 → specWindowValue capital d L j < specWindowValue capital d L i0)) := by
  induction n with
  | zero => exact Or.inl ⟨rfl, by omega⟩
  | succ n ih =>
    have hfold : bestFold capital d L (n + 1)
        = pureStep capital d L (bestFold capital d L n) n := by
      unfold bestFold
      rw [List.range_succ, List.foldl_append]
      rfl
    rcases ih with ⟨heq, hle⟩ | ⟨i0, hi0, heq, hpos, hmax, hstrict⟩
    · by_cases hw : (0 : ℚ) < specWindowValue capital d L n
      · refine Or.inr ⟨n, Nat.lt_succ_self n, ?_, hw, ?_, ?_⟩
        · rw [hfold, heq]
          unfold pureStep
          rw [if_pos hw]
        · intro j hj
          rcases Nat.lt_succ_iff_lt_or_eq.mp hj with h | rfl
          · exact le_trans (hle j h) (le_of_lt hw)
          · exact le_rfl
        · intro j hj
          exact lt_of_le_of_lt (hle j hj) hw
      · refine Or.inl ⟨?_, ?_⟩
        · rw [hfold, heq]
          unfold pureStep
          rw [if_neg hw]
        · intro j hj
          rcases Nat.lt_succ_iff_lt_or_eq.mp hj with h | rfl
          · exact hle j h
          · exact not_lt.mp hw
    · by_cases hw : specWindowValue capital d L i0 < specWindowValue capital d L n
      · refine Or.inr ⟨n, Nat.lt_succ_self n, ?_, lt_trans hpos hw, ?_, ?_⟩
        · rw [hfold, heq]
          unfold pureStep
          rw [if_pos hw]
        · intro j hj
          rcases Nat.lt_succ_iff_lt_or_eq.mp hj with h | rfl
          · exact le_trans (hmax j h) (le_of_lt hw)
          · exact le_rfl
        · intro j hj
          exact lt_of_le_of_lt (hmax j hj) hw
      · refine Or.inr ⟨i0, lt_trans hi0 (Nat.lt_succ_self n), ?_, hpos, ?_, hstrict⟩
        · rw [hfold, heq]
          unfold pureStep
          rw [if_neg hw]
        · intro j hj
          rcases Nat.lt_succ_iff_lt_or_eq.mp hj with h | rfl
          · exact hmax j h
          · exact not_lt.mp hw

theorem specWindowValue_pos (capital : ℚ) (df : List RateRec) (L i : ℕ)
    (hcap : 0 < capital) (hr : ∀ r ∈ df, -1 < r.valor) :
    0 < specWindowValue capital df L i := by
  unfold specWindowValue
  apply mul_pos hcap
  apply List.prod_pos
  intro a ha
  simp only [List.mem_map] at ha
  obtain ⟨x, hx, rfl⟩ := ha
  have hx' : x ∈ ((df.drop i).take L).map (fun r => r.valor) :=
    (List.dropLast_sublist _).subset hx
  simp only [List.mem_map] at hx'
  obtain ⟨rec, hrec, rfl⟩ := hx'
  have : rec ∈ df := (List.drop_subset i df) ((List.take_subset L _) hrec)
  have := hr rec this
  linarith

/-- Full characterisation of `max_val_range` on a strictly ascending
series with `N > L ≥ 1`, positive capital and rates above −100%:
it reports the earliest window among the scanned start indices
`0 … N−L−1` whose compounded value is maximal, together with that
value, which equals the independent compounding-formula result. -/
theorem max_val_range_char (capital : ℚ) (L : ℕ) (df : List RateRec)
    (hasc : AscDates df) (hL : 1 ≤ L) (hN : L < df.length)
    (hcap : 0 < capital) (hr : ∀ r ∈ df, -1 < r.valor) :
    ∃ i0, i0 < df.length - L ∧
      max_val_range capital L df
        = some (dAt df i0, dAt df (i0 + L - 1), specWindowValue capital df L i0) ∧
      (∀ j, j < df.length - L →
        specWindowValue capital df L j ≤ specWindowValue capital df L i0) ∧
      (∀ j, j < i0 →
        specWindowValue capital df L j < specWindowValue capital df L i0) := by
  have hdef : ∀ i ∈ List.range (df.length - L),
      calc_sum capital (dAt df i) (dAt df (i + L - 1)) df
        = some (specWindowValue capital df L i) := by
    intro i hi
    rw [List.mem_range] at hi
    exact calc_sum_window capital df L i hasc hL (by omega)
  have h1 : (maxValLoopSt capital L df).1
      = some (bestFold capital df L (df.length - L)) :=
    foldl_maxStep_pure capital L df _ hdef (none, 0)
  rcases bestFold_invariant capital df L (df.length - L) with
    ⟨_, hle⟩ | ⟨i0, hi0, heq, _, hmax, hstrict⟩
  · exfalso
    have h0 : 0 < df.length - L := by omega
    have := hle 0 h0
    have := specWindowValue_pos capital df L 0 hcap hr
    linarith
  · refine ⟨i0, hi0, ?_, hmax, hstrict⟩
    unfold max_val_range
    rw [h1, heq]
    rfl

/-- **C6.** On a strictly ascending series with `N > L ≥ 1` records
(positive capital, rates above −100% so that every window has positive
value), the optimizer scans exactly the `N−L` candidate windows with
start indices `0 … N−L−1` and reports the first window whose
accumulated value is strictly greater than all previously seen ones:
the reported start index `i0` beats every earlier window strictly and
is maximal among all scanned windows, so ties favour the earliest
window. -/
theorem c6_scan_and_tie_break (capital : ℚ) (L : ℕ) (df : List RateRec)
    (hasc : AscDates df) (hL : 1 ≤ L) (hN : L < df.length)
    (hcap : 0 < capital) (hr : ∀ r ∈ df, -1 < r.valor) :
    ∃ i0, i0 < df.length - L ∧
      max_val_range capital L df
        = some (dAt df i0, dAt df (i0 + L - 1), specWindowValue capital df L i0) ∧
      (∀ j, j < df.length - L →
        specWindowValue capital df L j ≤ specWindowValue capital df L i0) ∧
      (∀ j, j < i0 →
        specWindowValue capital df L j < specWindowValue capital df L i0) :=
  max_val_range_char capital L df hasc hL hN hcap hr

/-- A three-record series on which the optimizer misses the best
window: rates 0%, 100%, 0%. -/
def exDf : List RateRec :=
  [⟨⟨2020, 1, 1⟩, 0⟩, ⟨⟨2020, 1, 2⟩, 1⟩, ⟨⟨2020, 1, 3⟩, 0⟩]

/-- **C2, counterexample.** With capital 1 and window length `L = 2` on
`exDf` (N = 3 records), the loop scans only start index 0 (`N − L = 1`
iterations) and reports the window `[2020-01-01, 2020-01-02]` with
value 1; but the series contains another contiguous window of exactly
2 records, starting at index 1, whose compounded value is 2 > 1.  So
the reported best window's value is *not* ≥ the value of every
contiguous window of exactly `L` records, refuting the claim as
stated. -/
theorem c2_counterexample :
    max_val_range 1 2 exDf
      = some (⟨2020, 1, 1⟩, ⟨2020, 1, 2⟩, (1 : ℚ)) ∧
    ((exDf.drop 1).take 2).length = 2 ∧
    specWindowValue 1 exDf 2 1 = 2 ∧
    ¬ ((2 : ℚ) ≤ 1) := by
  obtain ⟨i0, hi0, heq, hmax, hstrict⟩ :=
    max_val_range_char 1 2 exDf (by decide) (by decide) (by decide)
      (by norm_num) (by decide)
  have hz : i0 = 0 := by
    simp only [exDf, List.length_cons, List.length_nil] at hi0
    omega
  subst hz
  refine ⟨?_, by decide, ?_, by norm_num⟩
  · rw [heq]
    have h1 : dAt exDf 0 = ⟨2020, 1, 1⟩ := by decide
    have h2 : dAt exDf (0 + 2 - 1) = ⟨2020, 1, 2⟩ := by decide
    have h3 : specWindowValue 1 exDf 2 0 = 1 := by
      unfold specWindowValue exDf
      norm_num
    rw [h1, h2, h3]
  · unfold specWindowValue exDf
    norm_num

/-- **C2, amended.** As the counterexample shows, the reported best
window is only maximal among the *scanned* windows, those with start
index `0 … N−L−1` (the final window of exactly `L` records, starting
at index `N−L`, is never examined).  Amended statement: on a strictly
ascending series with `N > L ≥ 1`, positive capital and rates above
−100%, the optimizer reports a scanned window whose value is ≥ the
value of every scanned window, and the reported value equals the
compounding formula (same one-position lag, seeded with the capital)
computed independently over that window's records. -/
theorem c2_amended_best_of_scanned (capital : ℚ) (L : ℕ) (df : List RateRec)
    (hasc : AscDates df) (hL : 1 ≤ L) (hN : L < df.length)
    (hcap : 0 < capital) (hr : ∀ r ∈ df, -1 < r.valor) :
    ∃ i0, i0 < df.length - L ∧
      max_val_range capital L df
        = some (dAt df i0, dAt df (i0 + L - 1), specWindowValue capital df L i0) ∧
      (∀ j, j < df.length - L →
        specWindowValue capital df L j ≤ specWindowValue capital df L i0) := by
  obtain ⟨i0, hi0, heq, hmax, _⟩ :=
    max_val_range_char capital L df hasc hL hN hcap hr
  exact ⟨i0, hi0, heq, hmax⟩

/-- Witness for `c6_scan_and_tie_break` on the concrete series `exDf`. -/
theorem c6_scan_and_tie_break_witness :
    AscDates exDf ∧ 1 ≤ 2 ∧ 2 < exDf.length ∧ (0 : ℚ) < 1 ∧
    (∀ r ∈ exDf, (-1 : ℚ) < r.valor) ∧
    (∃ i0, i0 < exDf.length - 2 ∧
      max_val_range 1 2 exDf
        = some (dAt exDf i0, dAt exDf (i0 + 2 - 1), specWindowValue 1 exDf 2 i0) ∧
      (∀ j, j < exDf.length - 2 →
        specWindowValue 1 exDf 2 j ≤ specWindowValue 1 exDf 2 i0) ∧
      (∀ j, j < i0 →
        specWindowValue 1 exDf 2 j < specWindowValue 1 exDf 2 i0)) :=
  ⟨by decide, by decide, by decide, by norm_num, by decide,
    c6_scan_and_tie_break 1 2 exDf (by decide) (by decide) (by decide)
      (by norm_num) (by decide)⟩

/-- Witness for `c2_amended_best_of_scanned` on the concrete series `exDf`. -/
theorem c2_amended_best_of_scanned_witness :
    AscDates exDf ∧ 1 ≤ 2 ∧ 2 < exDf.length ∧ (0 : ℚ) < 1 ∧
    (∀ r ∈ exDf, (-1 : ℚ) < r.valor) ∧
    (∃ i0, i0 < exDf.length - 2 ∧
      max_val_range 1 2 exDf
        = some (dAt exDf i0, dAt exDf (i0 + 2 - 1), specWindowValue 1 exDf 2 i0) ∧
      (∀ j, j < exDf.length - 2 →
        specWindowValue 1 exDf 2 j ≤ specWindowValue 1 exDf 2 i0)) :=
  ⟨by decide, by decide, by decide, by norm_num, by decide,
    c2_amended_best_of_scanned 1 2 exDf (by decide) (by decide) (by decide)
      (by norm_num) (by decide)⟩

/-- **C8.** When the series has `N ≤ L` records, `range(len(df) -
range_of)` is empty (Python `range` of a non-positive number), the loop
body never runs, `best_start`/`best_end` stay `None` with `best_value
= 0`, and building the final report fails (`best_start.date()` raises
`AttributeError` on `None`), modelled by `max_val_range` returning
`none`. -/
theorem c8_short_series_fails (capital : ℚ) (range_of : ℕ) (df : List RateRec)
    (h : df.length ≤ range_of) :
    List.range (df.length - range_of) = [] ∧
    maxValLoopSt capital range_of df = (some (none, 0), df) ∧
    max_val_range capital range_of df = none := by
  have h0 : df.length - range_of = 0 := Nat.sub_eq_zero_of_le h
  refine ⟨by rw [h0]; rfl, ?_, ?_⟩
  · unfold maxValLoopSt
    rw [h0]
    rfl
  · unfold max_val_range maxValLoopSt
    rw [h0]
    rfl

/-- Witness for `c8_short_series_fails`: 3 records, default window
length 500. -/
theorem c8_short_series_fails_witness :
    exDf.length ≤ 500 ∧ max_val_range 1 500 exDf = none :=
  ⟨by decide, (c8_short_series_fails 1 500 exDf (by decide)).2.2⟩

/-- **C7.** Running the optimizer over the rate series leaves the
series unchanged: with the series threaded explicitly through the
loop, the state after `max_val_range` is the very series that went in,
the sequence of (date, rate) pairs the pipeline subsequently compounds
is identical to the pre-optimizer sequence, and hence the compounded
column computed after the optimizer equals the one computed from the
original series: the optimizer's only observable output is its
report. -/
theorem c7_optimizer_preserves_series (capital : ℚ) (range_of : ℕ)
    (df : List RateRec) :
    (maxValLoopSt capital range_of df).2 = df ∧
    ((maxValLoopSt capital range_of df).2).map (fun r => (r.data, r.valor))
      = df.map (fun r => (r.data, r.valor)) ∧
    compoundCol capital
        (((maxValLoopSt capital range_of df).2).map (fun r => r.valor))
      = compoundCol capital (df.map (fun r => r.valor)) := by
  have h : (maxValLoopSt capital range_of df).2 = df :=
    foldl_maxStep_snd capital range_of df (List.range (df.length - range_of))
      (some (none, 0))
  exact ⟨h, by rw [h], by rw [h]⟩

/-- The bound used by the leading-record trim in `calc_amount`
(line 124): `pd.to_datetime(start_date_str)` where `start_date_str`
came from `strftime(start_date, "%d/%m/%Y")`.  `pd.to_datetime` is
given *no format*, and its default `dayfirst=False` resolves an
ambiguous first field as the month: for start 2010-01-11 the string
`"11/01/2010"` parses to 2010-11-01 (month and day swapped); only
when the day exceeds 12 (the first field cannot be a month) does the
parser fall back to day-first and recover the original date. -/
def trimBound (start_date : Date) : Date :=
  if start_date.day ≤ 12 then
    ⟨start_date.year, start_date.day, start_date.month⟩
  else start_date

/-- The leading-record trim in `calc_amount` (lines 123–125), applied
after the ascending sort:

    if df.iloc[0]["data"] < pd.to_datetime(start_date_str):
        df.drop(index=df.index[0], axis=0, inplace=True)

the first record is dropped iff its date is strictly earlier than the
re-parsed bound `trimBound start_date` — not the requested start date
itself.  (On an empty frame `iloc[0]` would raise; the theorems below
consider nonempty fetched series, written `r :: rest`.) -/
def trimFirst (start_date : Date) (df : List RateRec) : List RateRec :=
  match df with
  | [] => []
  | r :: rest => if Date.lt r.data (trimBound start_date) then rest else r :: rest

/-- Helper: the trim's actual contract — the first record is dropped
iff its date is strictly earlier than the *parsed bound*, at most that
one record is dropped, and the end of the series is never trimmed. -/
theorem trimFirst_char (start_date : Date) (r : RateRec) (rest : List RateRec) :
    (Date.lt r.data (trimBound start_date) →
      trimFirst start_date (r :: rest) = rest) ∧
    (¬ Date.lt r.data (trimBound start_date) →
      trimFirst start_date (r :: rest) = r :: rest) ∧
    (rest ≠ [] →
      (trimFirst start_date (r :: rest)).getLast? = (r :: rest).getLast?) := by
  refine ⟨?_, ?_, ?_⟩
  · intro h
    simp only [trimFirst]
    rw [if_pos h]
  · intro h
    simp only [trimFirst]
    rw [if_neg h]
  · intro hne
    simp only [trimFirst]
    obtain ⟨b, t, rfl⟩ : ∃ b t, rest = b :: t := by
      cases rest with
      | nil => exact absurd rfl hne
      | cons b t => exact ⟨b, t, rfl⟩
    rw [List.getLast?_cons_cons]
    split
    · rfl
    · rw [List.getLast?_cons_cons]

/-- **C4, code bug.**  The claim (and the code's own line-122 comment,
"remove the first row if its date is not within the desired range")
intends the comparison to be against the requested start date, but
line 124 re-parses the `"%d/%m/%Y"` string with `pd.to_datetime` and
no format, which reads it month-first whenever the day is ≤ 12.  Both
directions of the claim's iff fail on the code:

* for the repository's own example start date 2010-01-11 the bound
  becomes 2010-11-01, so a first record dated exactly 2010-01-11 —
  not strictly earlier than the requested start — is dropped;
* for start 2010-12-05 the bound becomes 2010-05-12, so a first
  record dated 2010-12-03 — strictly earlier than the requested
  start — is kept.

Only for days ≥ 13 does the bound coincide with the requested start
date. -/
theorem c4_trim_misparse_bug :
    trimBound ⟨2010, 1, 11⟩ = ⟨2010, 11, 1⟩ ∧
    ¬ Date.lt (⟨2010, 1, 11⟩ : Date) ⟨2010, 1, 11⟩ ∧
    trimFirst ⟨2010, 1, 11⟩ [⟨⟨2010, 1, 11⟩, 0⟩, ⟨⟨2010, 1, 12⟩, 0⟩]
      = [⟨⟨2010, 1, 12⟩, 0⟩] ∧
    trimBound ⟨2010, 12, 5⟩ = ⟨2010, 5, 12⟩ ∧
    Date.lt (⟨2010, 12, 3⟩ : Date) ⟨2010, 12, 5⟩ ∧
    trimFirst ⟨2010, 12, 5⟩ [⟨⟨2010, 12, 3⟩, 0⟩, ⟨⟨2010, 12, 4⟩, 0⟩]
      = [⟨⟨2010, 12, 3⟩, 0⟩, ⟨⟨2010, 12, 4⟩, 0⟩] ∧
    trimBound ⟨2010, 1, 25⟩ = ⟨2010, 1, 25⟩ := by
  decide

/-- One row of the daily compounded frame inside `calc_amount`: date
index `data`, rate column `valor`, compounded column `compound`. -/
structure CompRec where
  data : Date
  valor : ℚ
  compound : ℚ
deriving DecidableEq, Repr

/-- The daily compounded frame is strictly ascending by date. -/
def AscDatesC (df : List CompRec) : Prop :=
  List.Pairwise (fun a b => Date.lt a.data b.data) df

instance (df : List CompRec) : Decidable (AscDatesC df) := by
  unfold AscDatesC; exact inferInstance

/-- `df.groupby(keys).tail(1)`: keeps, in the frame's original row
order, the last row of each group — a row survives iff no later row
has the same group key. -/
def groupTail {K : Type} [DecidableEq K] (key : CompRec → K) :
    List CompRec → List CompRec
  | [] => []
  | r :: rest =>
    if rest.any (fun s => decide (key s = key r)) then groupTail key rest
    else r :: groupTail key rest

/-- Group key used for frequency `"month"`:
`df.groupby([df.index.year, df.index.month])`. -/
def monthKey (r : CompRec) : ℕ × ℕ := (r.data.year, r.data.month)

/-- Group key used for frequency `"year"`: `df.groupby([df.index.year])`. -/
def yearKey (r : CompRec) : ℕ := r.data.year

/-- The grouping step of `reshape_df`: `"month"` and `"year"` aggregate,
any other frequency string falls through both `if`s and leaves the
frame unchanged. -/
def groupStep (frequency : String) (df : List CompRec) : List CompRec :=
  if frequency = "month" then groupTail monthKey df
  else if frequency = "year" then groupTail yearKey df
  else df

/-- Output row of `reshape_df`: index `Date`, column `Capital`
(the renamed `compound`) and column `Amount earned`
(`compound − capital`, added by `earned`); the raw rate column
`valor` is dropped. -/
structure OutRec where
  date : Date
  capital : ℚ
  amountEarned : ℚ
deriving DecidableEq, Repr

/-- The column adjustments of `reshape_df` after sorting: `earned`
adds `Amount earned = compound − self.capital`, `valor` is dropped and
`compound` is renamed to `Capital`. -/
def earnedCols (capital : ℚ) (df : List CompRec) : List OutRec :=
  df.map (fun r => ⟨r.data, r.compound, r.compound - capital⟩)

instance : DecidableRel (fun a b : CompRec => Date.le a.data b.data) :=
  fun _ _ => inferInstance

/-- `reshape_df(df, frequency)`: set the date index, group by the
selected frequency, `sort_index()` (a stable sort by date), apply
`earned`, drop `valor` and rename `compound` to `Capital`. -/
def reshape_df (capital : ℚ) (df : List CompRec) (frequency : String) :
    List OutRec :=
  earnedCols capital
    (List.insertionSort (fun a b => Date.le a.data b.data)
      (groupStep frequency df))

theorem groupTail_sublist {K : Type} [DecidableEq K] (key : CompRec → K)
    (l : List CompRec) : (groupTail key l).Sublist l := by
  induction l with
  | nil => exact List.Sublist.refl []
  | cons a rest ih =>
    simp only [groupTail]
    split
    · exact ih.cons a
    · exact ih.cons₂ a

theorem groupTail_last {K : Type} [DecidableEq K] (key : CompRec → K)
    (l : List CompRec) (hasc : AscDatesC l) :
    ∀ x ∈ groupTail key l, ∀ s ∈ l, key s = key x → Date.le s.data x.data := by
  induction l with
  | nil => intro x hx; simp [groupTail] at hx
  | cons a rest ih =>
    have ha : ∀ s ∈ rest, Date.lt a.data s.data := (List.pairwise_cons.mp hasc).1
    have hrest : AscDatesC rest := (List.pairwise_cons.mp hasc).2
    intro x hx s hs hkey
    simp only [groupTail] at hx
    rw [List.mem_cons] at hs
    rcases hs with rfl | hs
    · by_cases hany : rest.any (fun t => decide (key t = key s)) = true
      · rw [if_pos hany] at hx
        have hxr : x ∈ rest := ((groupTail_sublist key rest).subset) hx
        exact Date.le_of_lt (ha x hxr)
      · rw [if_neg hany] at hx
        rw [List.mem_cons] at hx
        rcases hx with rfl | hx
        · exact Date.le_refl _
        · have hxr : x ∈ rest := ((groupTail_sublist key rest).subset) hx
          exact Date.le_of_lt (ha x hxr)
    · by_cases hany : rest.any (fun t => decide (key t = key a)) = true
      · rw [if_pos hany] at hx
        exact ih hrest x hx s hs hkey
      · rw [if_neg hany] at hx
        rw [List.mem_cons] at hx
        rcases hx with rfl | hx
        · exfalso
          apply hany
          rw [List.any_eq_true]
          exact ⟨s, hs, by simp [hkey]⟩
        · exact ih hrest x hx s hs hkey

theorem groupTail_represents {K : Type} [DecidableEq K] (key : CompRec → K)
    (l : List CompRec) :
    ∀ s ∈ l, ∃ x, x ∈ groupTail key l ∧ key x = key s := by
  induction l with
  | nil => intro s hs; simp at hs
  | cons a rest ih =>
    intro s hs
    rw [List.mem_cons] at hs
    simp only [groupTail]
    rcases hs with rfl | hs
    · by_cases hany : rest.any (fun t => decide (key t = key s)) = true
      · rw [List.any_eq_true] at hany
        obtain ⟨t, ht, hkt⟩ := hany
        obtain ⟨x, hx, hkx⟩ := ih t ht
        rw [if_pos (by rw [List.any_eq_true]; exact ⟨t, ht, hkt⟩)]
        exact ⟨x, hx, by rw [hkx]; exact of_decide_eq_true hkt⟩
      · rw [if_neg hany]
        exact ⟨s, List.mem_cons_self s _, rfl⟩
    · obtain ⟨x, hx, hkx⟩ := ih s hs
      split
      · exact ⟨x, hx, hkx⟩
      · exact ⟨x, List.mem_cons_of_mem a hx, hkx⟩

theorem groupTail_unique {K : Type} [DecidableEq K] (key : CompRec → K)
    (l : List CompRec) :
    ∀ x ∈ groupTail key l, ∀ y ∈ groupTail key l, key x = key y → x = y := by
  induction l with
  | nil => intro x hx; simp [groupTail] at hx
  | cons a rest ih =>
    intro x hx y hy hkey
    simp only [groupTail] at hx hy
    by_cases hany : rest.any (fun t => decide (key t = key a)) = true
    · rw [if_pos hany] at hx hy
      exact ih x hx y hy hkey
    · rw [if_neg hany] at hx hy
      rw [List.mem_cons] at hx hy
      rcases hx with rfl | hx <;> rcases hy with rfl | hy
      · rfl
      · exfalso
        apply hany
        rw [List.any_eq_true]
        refine ⟨y, ((groupTail_sublist key rest).subset) hy, by simp [hkey]⟩
      · exfalso
        apply hany
        rw [List.any_eq_true]
        refine ⟨x, ((groupTail_sublist key rest).subset) hx, by simp [hkey]⟩
      · exact ih x hx y hy hkey

theorem groupStep_subset (frequency : String) (df : List CompRec) :
    ∀ r ∈ groupStep frequency df, r ∈ df := by
  unfold groupStep
  split
  · exact fun r hr => ((groupTail_sublist monthKey df).subset) hr
  · split
    · exact fun r hr => ((groupTail_sublist yearKey df).subset) hr
    · exact fun r hr => hr

theorem groupStep_pairwise (frequency : String) (df : List CompRec)
    (hasc : AscDatesC df) : AscDatesC (groupStep frequency df) := by
  unfold groupStep
  split
  · exact List.Pairwise.sublist (groupTail_sublist monthKey df) hasc
  · split
    · exact List.Pairwise.sublist (groupTail_sublist yearKey df) hasc
    · exact hasc

theorem sorted_insertionSort_id (l : List CompRec) (hasc : AscDatesC l) :
    List.insertionSort (fun a b => Date.le a.data b.data) l = l := by
  apply List.Sorted.insertionSort_eq
  exact hasc.imp (fun h => Date.le_of_lt h)

/-- **C5.** For every strictly ascending daily `CompRec` sequence:
with frequency `"month"` the aggregator keeps exactly the
chronologically last record of each distinct (year, month) group
(kept records are a subsequence, each kept record is the latest of its
group, every group is represented, and no group appears twice); with
`"year"` the same holds for year groups; with `"day"`/`"daily"` every
record is kept.  For every frequency the output preserves ascending
date order and each output record carries `Date`, `Capital` (the
compounded value) and `Amount earned` (compounded value minus the
original capital), the raw rate column having been dropped. -/
theorem c5_aggregator (capital : ℚ) (df : List CompRec)
    (hasc : AscDatesC df) :
    (reshape_df capital df "month" = earnedCols capital (groupTail monthKey df) ∧
      (groupTail monthKey df).Sublist df ∧
      (∀ x ∈ groupTail monthKey df, ∀ s ∈ df,
        monthKey s = monthKey x → Date.le s.data x.data) ∧
      (∀ s ∈ df, ∃ x, x ∈ groupTail monthKey df ∧ monthKey x = monthKey s) ∧
      (∀ x ∈ groupTail monthKey df, ∀ y ∈ groupTail monthKey df,
        monthKey x = monthKey y → x = y)) ∧
    (reshape_df capital df "year" = earnedCols capital (groupTail yearKey df) ∧
      (groupTail yearKey df).Sublist df ∧
      (∀ x ∈ groupTail yearKey df, ∀ s ∈ df,
        yearKey s = yearKey x → Date.le s.data x.data) ∧
      (∀ s ∈ df, ∃ x, x ∈ groupTail yearKey df ∧ yearKey x = yearKey s) ∧
      (∀ x ∈ groupTail yearKey df, ∀ y ∈ groupTail yearKey df,
        yearKey x = yearKey y → x = y)) ∧
    (reshape_df capital df "day" = earnedCols capital df ∧
      reshape_df capital df "daily" = earnedCols capital df) ∧
    (∀ frequency, List.Pairwise (fun a b : OutRec => Date.lt a.date b.date)
      (reshape_df capital df frequency)) ∧
    (∀ frequency, ∀ o ∈ reshape_df capital df frequency,
      ∃ r, r ∈ df ∧ o = ⟨r.data, r.compound, r.compound - capital⟩) := by
  have hsort : ∀ frequency,
      List.insertionSort (fun a b => Date.le a.data b.data)
        (groupStep frequency df) = groupStep frequency df :=
    fun frequency =>
      sorted_insertionSort_id _ (groupStep_pairwise frequency df hasc)
  have hre : ∀ frequency,
      reshape_df capital df frequency
        = earnedCols capital (groupStep frequency df) := by
    intro frequency
    unfold reshape_df
    rw [hsort frequency]
  refine ⟨⟨?_, groupTail_sublist monthKey df, groupTail_last monthKey df hasc,
      groupTail_represents monthKey df, groupTail_unique monthKey df⟩,
    ⟨?_, groupTail_sublist yearKey df, groupTail_last yearKey df hasc,
      groupTail_represents yearKey df, groupTail_unique yearKey df⟩,
    ⟨?_, ?_⟩, ?_, ?_⟩
  · rw [hre "month"]
    rfl
  · rw [hre "year"]
    have : groupStep "year" df = groupTail yearKey df := by
      unfold groupStep
      rw [if_neg (by decide), if_pos rfl]
    rw [this]
  · rw [hre "day"]
    have : groupStep "day" df = df := by
      unfold groupStep
      rw [if_neg (by decide), if_neg (by decide)]
    rw [this]
  · rw [hre "daily"]
    have : groupStep "daily" df = df := by
      unfold groupStep
      rw [if_neg (by decide), if_neg (by decide)]
    rw [this]
  · intro frequency
    rw [hre frequency]
    unfold earnedCols
    rw [List.pairwise_map]
    exact groupStep_pairwise frequency df hasc
  · intro frequency o ho
    rw [hre frequency] at ho
    unfold earnedCols at ho
    rw [List.mem_map] at ho
    obtain ⟨r, hr, rfl⟩ := ho
    exact ⟨r, groupStep_subset frequency df r hr, rfl⟩

/-- Witness for `c5_aggregator`: two January records and one February
record; the monthly aggregation keeps the last January record and the
February record. -/
theorem c5_aggregator_witness :
    AscDatesC [⟨⟨2020, 1, 1⟩, 0, 10⟩, ⟨⟨2020, 1, 2⟩, 0, 11⟩, ⟨⟨2020, 2, 1⟩, 0, 12⟩] ∧
    reshape_df 10 [⟨⟨2020, 1, 1⟩, 0, 10⟩, ⟨⟨2020, 1, 2⟩, 0, 11⟩, ⟨⟨2020, 2, 1⟩, 0, 12⟩]
        "month"
      = earnedCols 10 (groupTail monthKey
        [⟨⟨2020, 1, 1⟩, 0, 10⟩, ⟨⟨2020, 1, 2⟩, 0, 11⟩, ⟨⟨2020, 2, 1⟩, 0, 12⟩]) :=
  ⟨by decide,
    (c5_aggregator 10
      [⟨⟨2020, 1, 1⟩, 0, 10⟩, ⟨⟨2020, 1, 2⟩, 0, 11⟩, ⟨⟨2020, 2, 1⟩, 0, 12⟩]
      (by decide)).1.1⟩

/-- A Python runtime value, as far as `is_valid_input`'s `isinstance`
checks distinguish them.  `bool` is listed separately because in
Python `bool` is a subclass of `int`, so `isinstance(True, int)` is
`True`; `date` covers `datetime.date` (and its subclass
`datetime.datetime`). -/
inductive PyVal where
  | int : ℤ → PyVal
  | float : ℚ → PyVal
  | bool : Bool → PyVal
  | str : String → PyVal
  | date : Date → PyVal
  | pyNone : PyVal
deriving DecidableEq, Repr

/-- `isinstance(x, (float, int))` — true for `int`, `float` and `bool`
(a `bool` *is* an `int` in Python). -/
def isNumeric : PyVal → Bool
  | .int _ => true
  | .float _ => true
  | .bool _ => true
  | _ => false

/-- `isinstance(x, (datetime, date))`, returning the underlying date. -/
def asDate : PyVal → Option Date
  | .date d => some d
  | _ => none

/-- Numeric value of a Python value when used in arithmetic
(`True == 1`, `False == 0`). -/
def pyToRat : PyVal → Option ℚ
  | .int n => some (n : ℚ)
  | .float q => some q
  | .bool b => some (if b then 1 else 0)
  | _ => none

/-- Two-digit zero-padded field of `strftime` (`%d`, `%m`). -/
def pad2 (n : ℕ) : String :=
  if n < 10 then "0" ++ toString n else toString n

/-- Four-digit zero-padded field of `strftime` (`%Y`). -/
def pad4 (n : ℕ) : String :=
  if n < 10 then "000" ++ toString n
  else if n < 100 then "00" ++ toString n
  else if n < 1000 then "0" ++ toString n
  else toString n

/-- `datetime.strftime(d, "%d/%m/%Y")`: the fixed-width
day/month/year rendering. -/
def fmtDate (d : Date) : String :=
  pad2 d.day ++ "/" ++ pad2 d.month ++ "/" ++ pad4 d.year

/-- `is_valid_input(start_date, end_date, frequency)` with the capital
read from `self.capital` passed explicitly:

    if not isinstance(self.capital, (float, int)):
        raise Exception("capital should be int or float")
    if isinstance(start_date, (datetime, date)) and isinstance(end_date, (datetime, date)):
        if start_date >= end_date:
            raise Exception("start_date cannot be greater than end_date")
        return [strftime(start_date, "%d/%m/%Y"), strftime(end_date, "%d/%m/%Y")]
    else:
        raise Exception("Inputs are in wrong format, should be date object")

`Except.error` models the raised exception with its message; the
`frequency` argument is accepted but never inspected. -/
def is_valid_input (capital start_date end_date : PyVal) (frequency : String) :
    Except String (List String) :=
  if isNumeric capital = false then
    Except.error "capital should be int or float"
  else
    match asDate start_date, asDate end_date with
    | some s, some e =>
      if Date.le e s then
        Except.error "start_date cannot be greater than end_date"
      else
        Except.ok [fmtDate s, fmtDate e]
    | _, _ => Except.error "Inputs are in wrong format, should be date object"

/-- **C3, counterexample.** With the non-numeric capital `"100"` *and*
a non-date start argument, the validator fails with the capital-type
error, not the date-type error — so "fails with a date-type error
whenever either date is not a proper calendar date" does not hold as
stated: the three "whenever" clauses overlap and the code gives the
capital check priority. -/
theorem c3_counterexample :
    asDate (PyVal.str "x") = none ∧
    is_valid_input (PyVal.str "100") (PyVal.str "x")
        (PyVal.date ⟨2020, 1, 2⟩) "day"
      = Except.error "capital should be int or float" ∧
    "capital should be int or float"
      ≠ "Inputs are in wrong format, should be date object" :=
  ⟨rfl, rfl, by decide⟩

/-- Helper: full case analysis of the validator's ordered checks. -/
theorem is_valid_input_cases (capital start_date end_date : PyVal)
    (frequency : String) :
    (isNumeric capital = false →
      is_valid_input capital start_date end_date frequency
        = Except.error "capital should be int or float") ∧
    (isNumeric capital = true → (asDate start_date = none ∨ asDate end_date = none) →
      is_valid_input capital start_date end_date frequency
        = Except.error "Inputs are in wrong format, should be date object") ∧
    (∀ ds de, isNumeric capital = true →
      asDate start_date = some ds → asDate end_date = some de →
      ((¬ Date.lt ds de →
        is_valid_input capital start_date end_date frequency
          = Except.error "start_date cannot be greater than end_date") ∧
      (Date.lt ds de →
        is_valid_input capital start_date end_date frequency
          = Except.ok [fmtDate ds, fmtDate de]))) := by
  refine ⟨?_, ?_, ?_⟩
  · intro h
    unfold is_valid_input
    rw [if_pos h]
  · intro h hdates
    unfold is_valid_input
    rw [if_neg (by rw [h]; simp)]
    rcases hdates with hd | hd
    · rw [hd]
    · rw [hd]
      cases hs : asDate start_date <;> rfl
  · intro ds de h hs he
    have hred : is_valid_input capital start_date end_date frequency
        = if Date.le de ds then
            Except.error "start_date cannot be greater than end_date"
          else Except.ok [fmtDate ds, fmtDate de] := by
      unfold is_valid_input
      rw [if_neg (by rw [h]; simp), hs, he]
    constructor
    · intro hlt
      have hle : Date.le de ds := by
        by_contra hc
        exact hlt (Date.lt_of_not_le hc)
      rw [hred, if_pos hle]
    · intro hlt
      rw [hred, if_neg (Date.not_le_of_lt hlt)]

/-- **C3, amended.** The validator's checks are ordered.  It fails with
the capital-type error whenever the capital is not numeric (regardless
of the dates); when the capital is numeric it fails with the date-type
error whenever either date argument is not a calendar date; when the
capital is numeric and both dates are calendar dates it fails with the
ordering error iff `startDate ≥ endDate` (including equality), and
otherwise succeeds, returning exactly the two dates formatted as
fixed-width day/month/year strings. -/
theorem c3_validator_check_order (capital start_date end_date : PyVal)
    (frequency : String) :
    (isNumeric capital = false →
      is_valid_input capital start_date end_date frequency
        = Except.error "capital should be int or float") ∧
    (isNumeric capital = true → (asDate start_date = none ∨ asDate end_date = none) →
      is_valid_input capital start_date end_date frequency
        = Except.error "Inputs are in wrong format, should be date object") ∧
    (∀ ds de, isNumeric capital = true →
      asDate start_date = some ds → asDate end_date = some de →
      ((¬ Date.lt ds de →
        is_valid_input capital start_date end_date frequency
          = Except.error "start_date cannot be greater than end_date") ∧
      (Date.lt ds de →
        is_valid_input capital start_date end_date frequency
          = Except.ok [fmtDate ds, fmtDate de]))) :=
  is_valid_input_cases capital start_date end_date frequency

/-- Witness for `c3_validator_check_order`: the success branch on
2020-01-01 < 2020-01-02 with integer capital 100, and the capital
branch on the string capital `"100"`. -/
theorem c3_validator_check_order_witness :
    isNumeric (PyVal.int 100) = true ∧
    asDate (PyVal.date ⟨2020, 1, 1⟩) = some ⟨2020, 1, 1⟩ ∧
    Date.lt (⟨2020, 1, 1⟩ : Date) ⟨2020, 1, 2⟩ ∧
    is_valid_input (PyVal.int 100) (PyVal.date ⟨2020, 1, 1⟩)
        (PyVal.date ⟨2020, 1, 2⟩) "day"
      = Except.ok [fmtDate ⟨2020, 1, 1⟩, fmtDate ⟨2020, 1, 2⟩] ∧
    isNumeric (PyVal.str "100") = false ∧
    is_valid_input (PyVal.str "100") (PyVal.date ⟨2020, 1, 1⟩)
        (PyVal.date ⟨2020, 1, 1⟩) "day"
      = Except.error "capital should be int or float" :=
  ⟨rfl, rfl, by decide,
    ((c3_validator_check_order (PyVal.int 100) (PyVal.date ⟨2020, 1, 1⟩)
      (PyVal.date ⟨2020, 1, 2⟩) "day").2.2 ⟨2020, 1, 1⟩ ⟨2020, 1, 2⟩
      rfl rfl rfl).2 (by decide),
    rfl,
    (c3_validator_check_order (PyVal.str "100") (PyVal.date ⟨2020, 1, 1⟩)
      (PyVal.date ⟨2020, 1, 1⟩) "day").1 rfl⟩

/-- **C9.** The frequency argument is never validated: `is_valid_input`
accepts it without inspecting it (its result is the same as for
`"day"` for *every* frequency string), and for every frequency other
than exactly `"month"` or `"year"` the aggregator's grouping step
passes every record through unchanged, so the whole reshape behaves
identically to the daily case. -/
theorem c9_frequency_not_validated (capital start_date end_date : PyVal)
    (cap : ℚ) (df : List CompRec) (frequency : String)
    (h1 : frequency ≠ "month") (h2 : frequency ≠ "year") :
    groupStep frequency df = df ∧
    reshape_df cap df frequency = reshape_df cap df "day" ∧
    is_valid_input capital start_date end_date frequency
      = is_valid_input capital start_date end_date "day" := by
  have hg : groupStep frequency df = df := by
    unfold groupStep
    rw [if_neg h1, if_neg h2]
  have hd : groupStep "day" df = df := by
    unfold groupStep
    rw [if_neg (by decide), if_neg (by decide)]
  refine ⟨hg, ?_, rfl⟩
  unfold reshape_df
  rw [hg, hd]

/-- Witness for `c9_frequency_not_validated` at the frequency
`"daily"` (the string the repository's own example passes). -/
theorem c9_frequency_not_validated_witness :
    ("daily" : String) ≠ "month" ∧ ("daily" : String) ≠ "year" ∧
    groupStep "daily" [⟨⟨2020, 1, 1⟩, 0, 10⟩] = [⟨⟨2020, 1, 1⟩, 0, 10⟩] ∧
    reshape_df 10 [⟨⟨2020, 1, 1⟩, 0, 10⟩] "daily"
      = reshape_df 10 [⟨⟨2020, 1, 1⟩, 0, 10⟩] "day" ∧
    is_valid_input (PyVal.int 100) (PyVal.date ⟨2020, 1, 1⟩)
        (PyVal.date ⟨2020, 1, 2⟩) "daily"
      = is_valid_input (PyVal.int 100) (PyVal.date ⟨2020, 1, 1⟩)
        (PyVal.date ⟨2020, 1, 2⟩) "day" := by
  have h := c9_frequency_not_validated (PyVal.int 100)
    (PyVal.date ⟨2020, 1, 1⟩) (PyVal.date ⟨2020, 1, 2⟩) 10
    [⟨⟨2020, 1, 1⟩, 0, 10⟩] "daily" (by decide) (by decide)
  exact ⟨by decide, by decide, h.1, h.2.1, h.2.2⟩

/-- **C10.** A boolean capital is accepted as numeric: Python's `bool`
is a subclass of `int`, so `isinstance(True, (float, int))` holds, the
validator raises no capital-type error for `capital = True` or
`False`, and the computation proceeds with the numeric value 1
(for `True`) or 0 (for `False`). -/
theorem c10_boolean_capital (b : Bool) (s e : Date) (frequency : String)
    (h : Date.lt s e) :
    isNumeric (PyVal.bool b) = true ∧
    is_valid_input (PyVal.bool b) (PyVal.date s) (PyVal.date e) frequency
      = Except.ok [fmtDate s, fmtDate e] ∧
    pyToRat (PyVal.bool b) = some (if b then 1 else 0) := by
  refine ⟨rfl, ?_, rfl⟩
  exact ((is_valid_input_cases (PyVal.bool b) (PyVal.date s)
    (PyVal.date e) frequency).2.2 s e rfl rfl rfl).2 h

/-- Witness for `c10_boolean_capital` at `capital = True`. -/
theorem c10_boolean_capital_witness :
    Date.lt (⟨2020, 1, 1⟩ : Date) ⟨2020, 1, 2⟩ ∧
    is_valid_input (PyVal.bool true) (PyVal.date ⟨2020, 1, 1⟩)
        (PyVal.date ⟨2020, 1, 2⟩) "day"
      = Except.ok [fmtDate ⟨2020, 1, 1⟩, fmtDate ⟨2020, 1, 2⟩] ∧
    pyToRat (PyVal.bool true) = some 1 :=
  ⟨by decide,
    (c10_boolean_capital true ⟨2020, 1, 1⟩ ⟨2020, 1, 2⟩ "day" (by decide)).2.1,
    (c10_boolean_capital true ⟨2020, 1, 1⟩ ⟨2020, 1, 2⟩ "day" (by decide)).2.2⟩
